import Mathlib

/-!
# Formal model of the hotkey-triggered file-transfer tool

A shallow embedding of `src/main.rs`: the wire-framing codec shared by
`send_file` (sender) and `run_server` (receiver), the receiver's
per-connection transfer step, the sender's transfer pipeline, the hotkey
specification parser `parse_hotkey`, and the coordinator / accept loops.

Bytes are modelled as `Nat` (values below 256 where produced by the code),
byte streams as `List Nat` holding every byte that will ever arrive on the
connection, and the filesystem as an association list from joined paths to
file contents.  Fallible reads follow `read_exact`: a read succeeds exactly
when the stream still holds the requested number of bytes.
-/

namespace FileTransfer

/-- `u32::to_be_bytes` applied to `n` (which the code obtains by `as u32`,
i.e. already reduced mod `2^32`): the four big-endian base-256 digits. -/
def toBe32 (n : Nat) : List Nat :=
  [n / 2 ^ 24 % 256, n / 2 ^ 16 % 256, n / 2 ^ 8 % 256, n % 256]

/-- `u32::from_be_bytes`: the value of a big-endian byte list. -/
def beToNat (l : List Nat) : Nat :=
  l.foldl (fun acc b => acc * 256 + b) 0

/-- `read_exact n` on a stream: succeeds iff `n` bytes are still available,
consuming exactly the first `n` and leaving the rest. -/
def readExact (n : Nat) (s : List Nat) : Option (List Nat × List Nat) :=
  if n ≤ s.length then some (s.take n, s.drop n) else none

/-- A UTF-8 continuation byte, `0x80 ..= 0xBF`. -/
def isCont (b : Nat) : Bool := 0x80 ≤ b && b ≤ 0xBF

/-- Lower bound for the first continuation byte of a multi-byte sequence
led by `b` (per the UTF-8 validation in Rust's `core::str`). -/
def contLo (b : Nat) : Nat :=
  if b == 0xE0 then 0xA0 else if b == 0xF0 then 0x90 else 0x80

/-- Upper bound for the first continuation byte of a multi-byte sequence
led by `b` (per the UTF-8 validation in Rust's `core::str`). -/
def contHi (b : Nat) : Nat :=
  if b == 0xED then 0x9F else if b == 0xF4 then 0x8F else 0xBF

/-- Length of the UTF-8 sequence led by byte `b`; `0` for an invalid lead
byte (continuation bytes, the overlong leads `0xC0`/`0xC1`, `0xF5 ..`). -/
def seqLen (b : Nat) : Nat :=
  if b ≤ 0x7F then 1
  else if 0xC2 ≤ b && b ≤ 0xDF then 2
  else if 0xE0 ≤ b && b ≤ 0xEF then 3
  else if 0xF0 ≤ b && b ≤ 0xF4 then 4
  else 0

/-- The first continuation byte of a sequence led by `b` lies in the
lead-specific range `contLo b ..= contHi b`. -/
def contOk (b b1 : Nat) : Bool := contLo b ≤ b1 && b1 ≤ contHi b

/-- `String::from_utf8` validity: strict UTF-8 (overlong forms, surrogates
and values above `U+10FFFF` rejected via `contLo`/`contHi`/`seqLen`).
The list patterns are unrolled to the four byte lengths a sequence can
have, so an input shorter than its lead byte demands is invalid. -/
def utf8Valid : List Nat → Bool
  | [] => true
  | [b] => seqLen b == 1
  | [b, b1] =>
    if seqLen b = 1 then utf8Valid [b1]
    else seqLen b == 2 && contOk b b1
  | [b, b1, b2] =>
    if seqLen b = 1 then utf8Valid [b1, b2]
    else if seqLen b = 2 then contOk b b1 && utf8Valid [b2]
    else seqLen b == 3 && contOk b b1 && isCont b2
  | b :: b1 :: b2 :: b3 :: rest =>
    if seqLen b = 1 then utf8Valid (b1 :: b2 :: b3 :: rest)
    else if seqLen b = 2 then contOk b b1 && utf8Valid (b2 :: b3 :: rest)
    else if seqLen b = 3 then contOk b b1 && isCont b2 && utf8Valid (b3 :: rest)
    else if seqLen b = 4 then
      contOk b b1 && isCont b2 && isCont b3 && utf8Valid rest
    else false

/-- The UTF-8 encoding of `U+FFFD REPLACEMENT CHARACTER`. -/
def replacementBytes : List Nat := [0xEF, 0xBF, 0xBD]

/-- `String::from_utf8_lossy` on a byte list: each maximal prefix of a valid
sequence that cannot be completed is replaced by one `U+FFFD`, scanning
resumes at the offending byte; an incomplete sequence at the end of the
input also becomes one `U+FFFD`. -/
def utf8Lossy : List Nat → List Nat
  | [] => []
  | [b] => if seqLen b = 1 then [b] else replacementBytes
  | [b, b1] =>
    if seqLen b = 1 then b :: utf8Lossy [b1]
    else if seqLen b = 2 then
      if contOk b b1 then [b, b1] else replacementBytes ++ utf8Lossy [b1]
    else if 3 ≤ seqLen b then
      if contOk b b1 then replacementBytes
      else replacementBytes ++ utf8Lossy [b1]
    else replacementBytes ++ utf8Lossy [b1]
  | [b, b1, b2] =>
    if seqLen b = 1 then b :: utf8Lossy [b1, b2]
    else if seqLen b = 2 then
      if contOk b b1 then b :: b1 :: utf8Lossy [b2]
      else replacementBytes ++ utf8Lossy [b1, b2]
    else if seqLen b = 3 then
      if contOk b b1 then
        if isCont b2 then [b, b1, b2] else replacementBytes ++ utf8Lossy [b2]
      else replacementBytes ++ utf8Lossy [b1, b2]
    else if seqLen b = 4 then
      if contOk b b1 then
        if isCont b2 then replacementBytes else replacementBytes ++ utf8Lossy [b2]
      else replacementBytes ++ utf8Lossy [b1, b2]
    else replacementBytes ++ utf8Lossy [b1, b2]
  | b :: b1 :: b2 :: b3 :: rest =>
    if seqLen b = 1 then b :: utf8Lossy (b1 :: b2 :: b3 :: rest)
    else if seqLen b = 2 then
      if contOk b b1 then b :: b1 :: utf8Lossy (b2 :: b3 :: rest)
      else replacementBytes ++ utf8Lossy (b1 :: b2 :: b3 :: rest)
    else if seqLen b = 3 then
      if contOk b b1 then
        if isCont b2 then b :: b1 :: b2 :: utf8Lossy (b3 :: rest)
        else replacementBytes ++ utf8Lossy (b2 :: b3 :: rest)
      else replacementBytes ++ utf8Lossy (b1 :: b2 :: b3 :: rest)
    else if seqLen b = 4 then
      if contOk b b1 then
        if isCont b2 then
          if isCont b3 then b :: b1 :: b2 :: b3 :: utf8Lossy rest
          else replacementBytes ++ utf8Lossy (b3 :: rest)
        else replacementBytes ++ utf8Lossy (b2 :: b3 :: rest)
      else replacementBytes ++ utf8Lossy (b1 :: b2 :: b3 :: rest)
    else replacementBytes ++ utf8Lossy (b1 :: b2 :: b3 :: rest)

/-- The frame `send_file` writes (main.rs:336-349): big-endian `u32` name
length (`filename.len() as u32`, i.e. mod `2^32`), big-endian `u32` payload
length, name bytes, payload bytes — in that order. -/
def encodeFrame (name payload : List Nat) : List Nat :=
  toBe32 (name.length % 2 ^ 32) ++ toBe32 (payload.length % 2 ^ 32) ++ name ++ payload

/-- The receiver's decode sequence (main.rs:206-237): `read_exact` 4 bytes of
name length, 4 bytes of payload length, then the name bytes (which must be
valid UTF-8) and the payload bytes.  Returns the name, the payload and the
unread remainder of the stream, or `none` on any short read or invalid
UTF-8 name. -/
def decodeFrame (s : List Nat) : Option (List Nat × List Nat × List Nat) :=
  match readExact 4 s with
  | none => none
  | some (nlb, s1) =>
    match readExact 4 s1 with
    | none => none
    | some (plb, s2) =>
      match readExact (beToNat nlb) s2 with
      | none => none
      | some (nameB, s3) =>
        if utf8Valid nameB then
          match readExact (beToNat plb) s3 with
          | none => none
          | some (payload, s4) => some (nameB, payload, s4)
        else none

/-- Outcome taxonomy of one transfer attempt (spec §3); the code realises
these as its distinct control-flow paths. -/
inductive TransferOutcome where
  | Success
  | NoDestinationConfigured
  | IOError
  | ProtocolError
deriving DecidableEq

/-- The bytes of an ASCII string (for ASCII, UTF-8 is the identity). -/
def asciiBytes (s : String) : List Nat := s.data.map Char.toNat

/-- The fixed success response `"OK".as_bytes()` (main.rs:247). -/
def okResponse : List Nat := asciiBytes "OK"

/-- The fixed error response sent when no destination is chosen
(main.rs:256). -/
def noDestResponse : List Nat := asciiBytes "ERROR: No save directory selected"

/-- The filesystem: an association list from a path (as bytes) to the file's
contents; a write prepends, a read finds the most recent entry. -/
abbrev Fs : Type := List (List Nat × List Nat)

/-- `save_dir.join(&filename)` for the relative names the frame carries:
directory, `/`, name. -/
def joinPath (dir name : List Nat) : List Nat := dir ++ [47] ++ name

/-- `fs::write`: create or overwrite the file at `p` with `data`. -/
def fsWrite (fs : Fs) (p data : List Nat) : Fs := (p, data) :: fs

/-- Read the current contents of the file at `p`, if present. -/
def fsRead : Fs → List Nat → Option (List Nat)
  | [], _ => none
  | (q, d) :: rest, p => if q = p then some d else fsRead rest p

/-- What one drained connection leaves behind. -/
structure ReceiveResult where
  /-- The filesystem after the attempt. -/
  fs : Fs
  /-- The bytes the receiver writes back on the connection. -/
  sent : List Nat
  /-- The outcome of the attempt, per the spec's taxonomy. -/
  outcome : TransferOutcome
deriving DecidableEq

/-- The receiver's handling of one queued connection (main.rs:202-260):
with no destination chosen, reply `noDestResponse` without touching the
stream; otherwise decode a frame (failure: log and `continue`, nothing
written back), write the payload to `save_dir.join(filename)` (`wFail`
models an `fs::write` error: log, no response) and on success reply
`okResponse`. -/
def receiveOne (saveDir : Option (List Nat)) (s : List Nat) (fs : Fs)
    (wFail : Bool) : ReceiveResult :=
  match saveDir with
  | none => ⟨fs, noDestResponse, .NoDestinationConfigured⟩
  | some dir =>
    match decodeFrame s with
    | none => ⟨fs, [], .ProtocolError⟩
    | some (name, payload, _) =>
      if wFail then ⟨fs, [], .IOError⟩
      else ⟨fsWrite fs (joinPath dir name) payload, okResponse, .Success⟩

/-- The environment one `send_file` call (main.rs:319-361) runs against:
whether `TcpStream::connect` succeeds, the result of
`file_name().to_string_lossy()` (`none` when the path has no final
component), the result of `fs::read`, the index (0-3) of the first
`write_all` that fails (if any), whether the final `read` of the response
succeeds, and the response bytes the server has made available. -/
structure SendEnv where
  /-- `TcpStream::connect` succeeds. -/
  connectOk : Bool
  /-- `file_path.file_name()` mapped through `to_string_lossy`. -/
  fileName : Option (List Nat)
  /-- `fs::read(file_path)` result. -/
  fileData : Option (List Nat)
  /-- Index of the first failing `write_all`, `none` when all succeed. -/
  writeFailsAt : Option Nat
  /-- The final `socket.read` succeeds. -/
  respReadOk : Bool
  /-- Bytes available when the response is read. -/
  respAvail : List Nat

/-- What one `send_file` call leaves behind. -/
structure SendResult where
  /-- The `write_all` payloads that completed, in order. -/
  written : List (List Nat)
  /-- The response bytes read back, when the call got that far. -/
  resp : Option (List Nat)
  /-- The outcome of the attempt, per the spec's taxonomy. -/
  outcome : TransferOutcome
deriving DecidableEq

/-- The four `write_all` payloads of `send_file` (main.rs:336-349), in
source order: name length, payload length, name bytes, payload bytes. -/
def sendFields (name data : List Nat) : List (List Nat) :=
  [toBe32 (name.length % 2 ^ 32), toBe32 (data.length % 2 ^ 32), name, data]

/-- `send_file` (main.rs:319-361): connect, take the file name, read the
file, write the four frame fields in order (stopping at the first failing
`write_all`), then read up to 1024 response bytes; every `?` failure
surfaces as `IOError`, a read response of any content is `Success`. -/
def sendFile (env : SendEnv) : SendResult :=
  if env.connectOk = false then ⟨[], none, .IOError⟩
  else
    match env.fileName with
    | none => ⟨[], none, .IOError⟩
    | some name =>
      match env.fileData with
      | none => ⟨[], none, .IOError⟩
      | some data =>
        let fields := sendFields name data
        match env.writeFailsAt with
        | some i =>
          if i < 4 then ⟨fields.take i, none, .IOError⟩
          else if env.respReadOk then ⟨fields, some (env.respAvail.take 1024), .Success⟩
          else ⟨fields, none, .IOError⟩
        | none =>
          if env.respReadOk then ⟨fields, some (env.respAvail.take 1024), .Success⟩
          else ⟨fields, none, .IOError⟩

/-- The key codes `parse_hotkey` recognises (main.rs:67-115): letters,
digits and function keys. -/
inductive KeyCode where
  | KeyA | KeyB | KeyC | KeyD | KeyE | KeyF | KeyG | KeyH | KeyI | KeyJ
  | KeyK | KeyL | KeyM | KeyN | KeyO | KeyP | KeyQ | KeyR | KeyS | KeyT
  | KeyU | KeyV | KeyW | KeyX | KeyY | KeyZ
  | Digit0 | Digit1 | Digit2 | Digit3 | Digit4 | Digit5 | Digit6 | Digit7
  | Digit8 | Digit9
  | F1 | F2 | F3 | F4 | F5 | F6 | F7 | F8 | F9 | F10 | F11 | F12
deriving DecidableEq

/-- The modifier set accumulated with `|=` (main.rs:56, 61-64). -/
structure Modifiers where
  /-- `Modifiers::CONTROL` is set. -/
  control : Bool
  /-- `Modifiers::SHIFT` is set. -/
  shift : Bool
  /-- `Modifiers::ALT` is set. -/
  alt : Bool
  /-- `Modifiers::META` is set. -/
  meta : Bool
deriving DecidableEq

/-- `Modifiers::empty()`. -/
def Modifiers.empty : Modifiers := ⟨false, false, false, false⟩

/-- A parsed hotkey: by construction exactly one key code, plus the
modifier set. -/
structure HotKey where
  /-- The accumulated modifier set. -/
  mods : Modifiers
  /-- The single key code. -/
  code : KeyCode
deriving DecidableEq

/-- The key-token table of `parse_hotkey` (main.rs:67-115); tokens are
lists of characters, already trimmed and lower-cased. -/
def keyCodeOf (t : List Char) : Option KeyCode :=
  if t = "a".toList then some .KeyA else if t = "b".toList then some .KeyB
  else if t = "c".toList then some .KeyC else if t = "d".toList then some .KeyD
  else if t = "e".toList then some .KeyE else if t = "f".toList then some .KeyF
  else if t = "g".toList then some .KeyG else if t = "h".toList then some .KeyH
  else if t = "i".toList then some .KeyI else if t = "j".toList then some .KeyJ
  else if t = "k".toList then some .KeyK else if t = "l".toList then some .KeyL
  else if t = "m".toList then some .KeyM else if t = "n".toList then some .KeyN
  else if t = "o".toList then some .KeyO else if t = "p".toList then some .KeyP
  else if t = "q".toList then some .KeyQ else if t = "r".toList then some .KeyR
  else if t = "s".toList then some .KeyS else if t = "t".toList then some .KeyT
  else if t = "u".toList then some .KeyU else if t = "v".toList then some .KeyV
  else if t = "w".toList then some .KeyW else if t = "x".toList then some .KeyX
  else if t = "y".toList then some .KeyY else if t = "z".toList then some .KeyZ
  else if t = "0".toList then some .Digit0 else if t = "1".toList then some .Digit1
  else if t = "2".toList then some .Digit2 else if t = "3".toList then some .Digit3
  else if t = "4".toList then some .Digit4 else if t = "5".toList then some .Digit5
  else if t = "6".toList then some .Digit6 else if t = "7".toList then some .Digit7
  else if t = "8".toList then some .Digit8 else if t = "9".toList then some .Digit9
  else if t = "f1".toList then some .F1 else if t = "f2".toList then some .F2
  else if t = "f3".toList then some .F3 else if t = "f4".toList then some .F4
  else if t = "f5".toList then some .F5 else if t = "f6".toList then some .F6
  else if t = "f7".toList then some .F7 else if t = "f8".toList then some .F8
  else if t = "f9".toList then some .F9 else if t = "f10".toList then some .F10
  else if t = "f11".toList then some .F11 else if t = "f12".toList then some .F12
  else none

/-- The modifier tokens of the match in `parse_hotkey` (main.rs:61-64),
already trimmed and lower-cased. -/
def isModTok (t : List Char) : Bool :=
  t = "ctrl".toList || t = "control".toList || t = "shift".toList ||
  t = "alt".toList || t = "meta".toList || t = "cmd".toList ||
  t = "command".toList || t = "win".toList || t = "windows".toList

/-- The `modifiers |= ...` arm matching the (trimmed, lower-cased) modifier
token `t` (main.rs:61-64). -/
def modApply (m : Modifiers) (t : List Char) : Modifiers :=
  if t = "ctrl".toList || t = "control".toList then { m with control := true }
  else if t = "shift".toList then { m with shift := true }
  else if t = "alt".toList then { m with alt := true }
  else { m with meta := true }

/-- `str::split('+')` on a character list. -/
def splitPlus : List Char → List (List Char)
  | [] => [[]]
  | c :: r =>
    if c = '+' then [] :: splitPlus r
    else
      match splitPlus r with
      | t :: ts => (c :: t) :: ts
      | [] => [[c]]

/-- `str::trim` on a character list: whitespace stripped from both ends. -/
def trimChars (l : List Char) : List Char :=
  ((l.dropWhile Char.isWhitespace).reverse.dropWhile Char.isWhitespace).reverse

/-- `part.trim().to_lowercase()` (main.rs:60) on a character list. -/
def normTok (l : List Char) : List Char :=
  (trimChars l).map Char.toLower

/-- The `for part in parts` loop of `parse_hotkey` (main.rs:59-120),
carrying the accumulated modifiers and the (over-writable) key code:
a modifier token sets its flag, any other token is looked up as a key code
(unknown: `bail!`), and a later key token replaces an earlier one. -/
def parseParts : List (List Char) → Modifiers → Option KeyCode →
    Except (List Char) (Modifiers × Option KeyCode)
  | [], m, c => .ok (m, c)
  | p :: rest, m, c =>
    let t := normTok p
    if isModTok t then parseParts rest (modApply m t) c
    else
      match keyCodeOf t with
      | some k => parseParts rest m (some k)
      | none => .error ("不明なキーコード: ".toList ++ t)

/-- `parse_hotkey` (main.rs:54-127): split the specification on `+`, run
the token loop, and require that some key code was seen. -/
def parse_hotkey (s : List Char) : Except (List Char) HotKey :=
  match parseParts (splitPlus s) Modifiers.empty none with
  | .error e => .error e
  | .ok (m, some c) => .ok ⟨m, c⟩
  | .ok (_, none) => .error "キーコードが指定されていません".toList

instance : DecidableEq (Except (List Char) HotKey) := fun a b =>
  match a, b with
  | .ok x, .ok y => if h : x = y then isTrue (by rw [h]) else isFalse (by simp [h])
  | .error x, .error y => if h : x = y then isTrue (by rw [h]) else isFalse (by simp [h])
  | .ok _, .error _ => isFalse (by simp)
  | .error _, .ok _ => isFalse (by simp)

/-- Fold giving the modifier set the token loop accumulates over the parts
(key tokens leave it unchanged). -/
def modsFold (ps : List (List Char)) (m : Modifiers) : Modifiers :=
  ps.foldl (fun m p => let t := normTok p; if isModTok t then modApply m t else m) m

/-- Fold giving the key code after the token loop: the last key token wins,
starting from `c`. -/
def keyFold (ps : List (List Char)) (c : Option KeyCode) : Option KeyCode :=
  ps.foldl
    (fun acc p =>
      let t := normTok p
      if isModTok t then acc
      else match keyCodeOf t with | some k => some k | none => acc) c

/-- A part the token loop accepts: a modifier token or a known key token
(after trimming and lower-casing). -/
def goodTok (p : List Char) : Bool :=
  isModTok (normTok p) || (keyCodeOf (normTok p)).isSome

/-- Result of the directory picker when a hotkey press matched. -/
inductive PickerResult where
  | confirmed (dir : List Nat)
  | cancelled
deriving DecidableEq

/-- The hotkey-and-picker step of one coordinator iteration
(main.rs:182-195): on an event whose id matches the registered hotkey,
open the picker; a confirmed selection replaces `save_path`, a cancelled
picker (and a non-matching or absent event) leaves it unchanged. -/
def updateDest (hid : Nat) (dest : Option (List Nat)) (ev : Option Nat)
    (p : PickerResult) : Option (List Nat) :=
  match ev with
  | none => dest
  | some id =>
    if id = hid then
      match p with
      | .confirmed d => some d
      | .cancelled => dest
    else dest

/-- `updateDest` folded over a sequence of loop iterations' events. -/
def runDest (hid : Nat) (dest : Option (List Nat))
    (evs : List (Option Nat × PickerResult)) : Option (List Nat) :=
  evs.foldl (fun d e => updateDest hid d e.1 e.2) dest

/-- The inputs one coordinator iteration consumes. -/
structure TickInput where
  /-- The pending hotkey event's id, if any (`try_recv`). -/
  ev : Option Nat
  /-- The picker's answer, consulted only on a matching event. -/
  picker : PickerResult
  /-- The stream of a queued connection, if one is available (`try_recv`). -/
  conn : Option (List Nat)
  /-- Whether `fs::write` would fail for this transfer. -/
  wFail : Bool

/-- One iteration of the receiver's main loop (main.rs:180-264).  The
`Except` codomain records whether the iteration propagates an error out of
the loop (terminating the process): every per-transfer outcome is logged
and the iteration completes with the new destination and filesystem. -/
def serverStep (hid : Nat) (dest : Option (List Nat)) (fs : Fs)
    (inp : TickInput) : Except (List Char) (Option (List Nat) × Fs) :=
  let dest1 := updateDest hid dest inp.ev inp.picker
  match inp.conn with
  | none => .ok (dest1, fs)
  | some s => .ok (dest1, (receiveOne dest1 s fs inp.wFail).fs)

/-- The receiver's main loop over a finite trace of iteration inputs,
stopping early only if an iteration propagates an error. -/
def serverLoop (hid : Nat) : List TickInput → Option (List Nat) → Fs →
    Except (List Char) (Option (List Nat) × Fs)
  | [], d, fs => .ok (d, fs)
  | i :: is, d, fs =>
    match serverStep hid d fs i with
    | .ok (d', fs') => serverLoop hid is d' fs'
    | .error e => .error e

/-- One iteration of the accept loop (main.rs:160-174): a successful accept
sends the connection to the coordinator's queue, an accept error is logged;
either way the loop continues (the `Except` codomain records whether the
iteration propagates an error out of the loop). -/
def acceptStep (queue : List (List Nat)) (accepted : Option (List Nat)) :
    Except (List Char) (List (List Nat)) :=
  match accepted with
  | some c => .ok (queue ++ [c])
  | none => .ok queue

/-- `file_path.file_name()` for a path given as its components: the final
component, unless the path ends in `..` (or has no components). -/
def fileNameOf (components : List (List Nat)) : Option (List Nat) :=
  match components.getLast? with
  | none => none
  | some c => if c = [46, 46] then none else some c

/-- The name `send_file` puts in the frame (main.rs:327-331):
`file_name().to_string_lossy()`. -/
def senderName (components : List (List Nat)) : Option (List Nat) :=
  (fileNameOf components).map utf8Lossy

/-! ## Helper lemmas -/

theorem toBe32_length (m : Nat) : (toBe32 m).length = 4 := rfl

theorem beToNat_toBe32 {m : Nat} (h : m < 2 ^ 32) : beToNat (toBe32 m) = m := by
  simp only [toBe32, beToNat, List.foldl]
  omega

theorem readExact_append {n : Nat} {l t : List Nat} (h : l.length = n) :
    readExact n (l ++ t) = some (l, t) := by
  subst h
  simp [readExact, List.take_left, List.drop_left]

theorem readExact_self (l : List Nat) : readExact l.length l = some (l, []) := by
  simp [readExact]

/-- `decodeFrame` in closed form: it succeeds exactly when the stream holds
the 8 header bytes plus the two announced lengths and the name bytes are
valid UTF-8, and then the name, payload and remainder sit at the announced
offsets. -/
theorem decodeFrame_char (s : List Nat) :
    decodeFrame s =
      if 8 + beToNat (s.take 4) + beToNat ((s.drop 4).take 4) ≤ s.length ∧
          utf8Valid ((s.drop 8).take (beToNat (s.take 4))) = true then
        some ((s.drop 8).take (beToNat (s.take 4)),
              (s.drop (8 + beToNat (s.take 4))).take (beToNat ((s.drop 4).take 4)),
              s.drop (8 + beToNat (s.take 4) + beToNat ((s.drop 4).take 4)))
      else none := by
  unfold decodeFrame readExact
  by_cases h4 : 4 ≤ s.length
  · rw [if_pos h4]
    dsimp only
    by_cases h8 : 4 ≤ (s.drop 4).length
    · rw [if_pos h8]
      dsimp only
      rw [List.drop_drop]
      norm_num
      rw [List.length_drop] at h8
      by_cases hn : beToNat (s.take 4) ≤ s.length - 8
      · rw [if_pos hn]
        dsimp only
        by_cases hv : utf8Valid ((s.drop 8).take (beToNat (s.take 4))) = true
        · rw [if_pos hv]
          by_cases hp : beToNat ((s.drop 4).take 4) ≤ (s.drop (8 + beToNat (s.take 4))).length
          · rw [if_pos hp]
            dsimp only
            rw [List.length_drop] at hp
            rw [if_pos ⟨by omega, hv⟩, List.drop_drop]
          · rw [if_neg hp]
            rw [List.length_drop] at hp
            rw [if_neg]
            intro hc
            exact hp (by omega)
        · rw [if_neg hv, if_neg]
          intro hc
          exact hv hc.2
      · rw [if_neg hn]
        dsimp only
        rw [if_neg]
        intro hc
        exact hn (by omega)
    · rw [if_neg h8]
      dsimp only
      rw [List.length_drop] at h8
      rw [if_neg]
      intro hc
      exact absurd hc.1 (by omega)
  · rw [if_neg h4]
    dsimp only
    rw [if_neg]
    intro hc
    exact absurd hc.1 (by omega)

/-- Helper for the C1 counterexample: whenever the payload's length is a
positive multiple of `2^32`, the sender's `as u32` cast makes the frame
announce a payload of length `len % 2^32`; for a remainder of `0` the
receiver decodes an empty payload and leaves the whole payload unread. -/
theorem decode_encode_overflow (t : List Nat) (h : t.length % 2 ^ 32 = 0) :
    decodeFrame (encodeFrame [97] t) = some ([97], [], t) := by
  have henc : encodeFrame [97] t = [0, 0, 0, 1] ++ ([0, 0, 0, 0] ++ ([97] ++ t)) := by
    unfold encodeFrame
    rw [h]
    norm_num [toBe32]
  rw [henc]
  simp only [decodeFrame,
    readExact_append (show ([0, 0, 0, 1] : List Nat).length = 4 from rfl),
    readExact_append (show ([0, 0, 0, 0] : List Nat).length = 4 from rfl)]
  have hb1 : beToNat [0, 0, 0, 1] = 1 := rfl
  have hb0 : beToNat [0, 0, 0, 0] = 0 := rfl
  rw [hb1, hb0, readExact_append (show ([97] : List Nat).length = 1 from rfl)]
  have hv : utf8Valid [97] = true := rfl
  simp only [hv, if_true]
  have h0 : readExact 0 t = some ([], t) := by
    simp [readExact]
  rw [h0]

theorem utf8Valid_nil : utf8Valid [] = true := rfl

theorem utf8Valid_replacementBytes : utf8Valid replacementBytes = true := by decide

theorem utf8Valid_cons_ascii {b : Nat} (h : seqLen b = 1) (L : List Nat) :
    utf8Valid (b :: L) = utf8Valid L := by
  match L with
  | [] => simp [utf8Valid, h]
  | [c] =>
    conv_lhs => rw [utf8Valid]
    rw [if_pos h]
  | [c, c2] =>
    conv_lhs => rw [utf8Valid]
    rw [if_pos h]
  | c :: c2 :: c3 :: t =>
    conv_lhs => rw [utf8Valid]
    rw [if_pos h]

theorem utf8Valid_cons2 {b b1 : Nat} (h : seqLen b = 2) (hc : contOk b b1 = true)
    (L : List Nat) : utf8Valid (b :: b1 :: L) = utf8Valid L := by
  match L with
  | [] => simp [utf8Valid, h, hc]
  | [c] =>
    conv_lhs => rw [utf8Valid]
    rw [if_neg (by omega : ¬seqLen b = 1), if_pos h, hc, Bool.true_and]
  | c :: c2 :: t =>
    conv_lhs => rw [utf8Valid]
    rw [if_neg (by omega : ¬seqLen b = 1), if_pos h, hc, Bool.true_and]

theorem utf8Valid_cons3 {b b1 b2 : Nat} (h : seqLen b = 3) (hc : contOk b b1 = true)
    (h2 : isCont b2 = true) (L : List Nat) :
    utf8Valid (b :: b1 :: b2 :: L) = utf8Valid L := by
  match L with
  | [] => simp [utf8Valid, h, hc, h2]
  | c :: t =>
    conv_lhs => rw [utf8Valid]
    rw [if_neg (by omega : ¬seqLen b = 1), if_neg (by omega : ¬seqLen b = 2),
      if_pos h, hc, h2, Bool.true_and, Bool.true_and]

theorem utf8Valid_cons4 {b b1 b2 b3 : Nat} (h : seqLen b = 4) (hc : contOk b b1 = true)
    (h2 : isCont b2 = true) (h3 : isCont b3 = true) (L : List Nat) :
    utf8Valid (b :: b1 :: b2 :: b3 :: L) = utf8Valid L := by
  conv_lhs => rw [utf8Valid]
  rw [if_neg (by omega : ¬seqLen b = 1), if_neg (by omega : ¬seqLen b = 2),
    if_neg (by omega : ¬seqLen b = 3), if_pos h, hc, h2, h3,
    Bool.true_and, Bool.true_and, Bool.true_and]

theorem utf8Valid_replacement_append (l : List Nat) :
    utf8Valid (replacementBytes ++ l) = utf8Valid l := by
  have h3 : seqLen 0xEF = 3 := by decide
  have hc : contOk 0xEF 0xBF = true := by decide
  have h2 : isCont 0xBD = true := by decide
  simpa [replacementBytes] using utf8Valid_cons3 h3 hc h2 l

/-- Whatever bytes go in, `String::from_utf8_lossy` comes out valid UTF-8. -/
theorem utf8Valid_utf8Lossy (l : List Nat) : utf8Valid (utf8Lossy l) = true := by
  induction l using utf8Lossy.induct <;>
    (rw [utf8Lossy]
     try split_ifs
     all_goals
       simp_all [utf8Valid_nil, utf8Valid_cons_ascii, utf8Valid_cons2, utf8Valid_cons3,
         utf8Valid_cons4, utf8Valid_replacement_append, utf8Valid_replacementBytes])

/-- The token loop on a list of parts that are all modifier or known key
tokens: the modifiers accumulate and the last key token wins. -/
theorem parseParts_ok (ps : List (List Char)) :
    ∀ m c, (∀ p ∈ ps, goodTok p = true) →
      parseParts ps m c = .ok (modsFold ps m, keyFold ps c) := by
  induction ps with
  | nil => intro m c _; rfl
  | cons p rest ih =>
    intro m c h
    have hp : goodTok p = true := h p (List.mem_cons_self p rest)
    have hrest : ∀ q ∈ rest, goodTok q = true := fun q hq => h q (List.mem_cons_of_mem p hq)
    rw [parseParts]
    by_cases hm : isModTok (normTok p) = true
    · rw [if_pos hm, ih _ _ hrest]
      simp [modsFold, keyFold, hm]
    · rw [if_neg hm]
      have hk : (keyCodeOf (normTok p)).isSome = true := by
        rw [goodTok] at hp
        rcases Bool.or_eq_true_iff.mp hp with h1 | h1
        · exact absurd h1 hm
        · exact h1
      obtain ⟨k, hk⟩ := Option.isSome_iff_exists.mp hk
      rw [hk]
      dsimp only
      rw [ih _ _ hrest]
      simp only [modsFold, keyFold, List.foldl]
      rw [Bool.not_eq_true] at hm
      simp [hm, hk]

/-- The token loop on a list of parts one of which is neither a modifier
nor a known key token: the result is an error. -/
theorem parseParts_err (ps : List (List Char)) :
    ∀ m c, (∃ p ∈ ps, goodTok p = false) →
      ∃ e, parseParts ps m c = .error e := by
  induction ps with
  | nil =>
    rintro m c ⟨p, hp, _⟩
    exact absurd hp (List.not_mem_nil p)
  | cons p rest ih =>
    rintro m c ⟨q, hq, hbad⟩
    rw [parseParts]
    by_cases hm : isModTok (normTok p) = true
    · rw [if_pos hm]
      apply ih
      rcases List.mem_cons.mp hq with rfl | hq'
      · rw [goodTok, hm, Bool.true_or] at hbad
        exact absurd hbad (by simp)
      · exact ⟨q, hq', hbad⟩
    · rw [if_neg hm]
      cases hkc : keyCodeOf (normTok p) with
      | none => exact ⟨_, rfl⟩
      | some k =>
        dsimp only
        apply ih
        rcases List.mem_cons.mp hq with rfl | hq'
        · rw [goodTok, hkc] at hbad
          simp at hbad
        · exact ⟨q, hq', hbad⟩

theorem fsRead_fsWrite (fs : Fs) (p data : List Nat) :
    fsRead (fsWrite fs p data) p = some data := by
  simp [fsRead, fsWrite]

/-! ## Claim theorems -/

/-- C1 (counterexample): the claim quantifies over every payload, but for a
payload of `2^32` zero bytes the `as u32` length cast wraps to `0`: the
receiver decodes an empty payload, not the one that was sent, even though
the name `"a"` is valid UTF-8 and non-empty. -/
theorem encode_decode_roundTrip_counterexample :
    utf8Valid [97] = true ∧ ([97] : List Nat) ≠ [] ∧
    decodeFrame (encodeFrame [97] (List.replicate (2 ^ 32) 0)) =
      some ([97], [], List.replicate (2 ^ 32) 0) ∧
    ([] : List Nat) ≠ List.replicate (2 ^ 32) 0 := by
  refine ⟨rfl, by simp, ?_, ?_⟩
  · exact decode_encode_overflow _ (by rw [List.length_replicate]; exact Nat.mod_self _)
  · intro h
    have h2 := congrArg List.length h
    rw [List.length_replicate] at h2
    simp at h2

/-- C1 (amended): for every non-empty valid-UTF-8 name and every payload,
each SHORTER THAN `2^32` bytes, encoding the frame as `send_file` does and
decoding it as `run_server` does returns exactly the original name and
payload (and consumes the whole frame). -/
theorem encode_decode_roundTrip (name payload : List Nat) (_hne : name ≠ [])
    (hv : utf8Valid name = true) (hn : name.length < 2 ^ 32)
    (hp : payload.length < 2 ^ 32) :
    decodeFrame (encodeFrame name payload) = some (name, payload, []) := by
  have hn' : name.length % 2 ^ 32 = name.length := Nat.mod_eq_of_lt hn
  have hp' : payload.length % 2 ^ 32 = payload.length := Nat.mod_eq_of_lt hp
  simp only [encodeFrame, decodeFrame, hn', hp', List.append_assoc,
    readExact_append (toBe32_length _), beToNat_toBe32 hn, beToNat_toBe32 hp,
    readExact_append (rfl : name.length = name.length), hv, if_true,
    readExact_self]

/-- C1 (witness): the round trip at the concrete name `"a"` and payload
`[1, 2, 3]`. -/
theorem encode_decode_roundTrip_witness :
    decodeFrame (encodeFrame [97] [1, 2, 3]) = some ([97], [1, 2, 3], []) :=
  encode_decode_roundTrip [97] [1, 2, 3] (by decide) (by decide) (by decide) (by decide)

/-- C2: with a destination configured and a frame the receiver can decode,
`run_server` writes exactly the decoded payload at
`save_dir.join(filename)` — overwriting whatever the filesystem held for
that path — answers `"OK"` on the same connection, and the transfer is a
success. -/
theorem receiveOne_valid_frame (dir s n p r : List Nat) (fs : Fs)
    (h : decodeFrame s = some (n, p, r)) :
    receiveOne (some dir) s fs false =
      ⟨fsWrite fs (joinPath dir n) p, okResponse, .Success⟩ ∧
    fsRead (fsWrite fs (joinPath dir n) p) (joinPath dir n) = some p := by
  constructor
  · rw [receiveOne, h]
    rfl
  · exact fsRead_fsWrite fs (joinPath dir n) p

/-- C2 (witness): a concrete transfer of file `"a"` with payload `[1, 2]`
into directory `"d"`, overwriting an existing file at the same path. -/
theorem receiveOne_valid_frame_witness :
    receiveOne (some [100]) (encodeFrame [97] [1, 2]) [([100, 47, 97], [9])] false =
      ⟨fsWrite [([100, 47, 97], [9])] (joinPath [100] [97]) [1, 2], okResponse, .Success⟩ ∧
    fsRead (fsWrite [([100, 47, 97], [9])] (joinPath [100] [97]) [1, 2])
      (joinPath [100] [97]) = some [1, 2] :=
  receiveOne_valid_frame [100] (encodeFrame [97] [1, 2]) [97] [1, 2] []
    [([100, 47, 97], [9])] (by decide)

/-- C3: with no destination configured, the receiver's handling of a
connection is independent of anything on the stream (zero bytes are read,
no decode is attempted), leaves the filesystem alone, writes back exactly
the fixed ASCII response `"ERROR: No save directory selected"`, and the
outcome is `NoDestinationConfigured`. -/
theorem receiveOne_noDestination (s s' : List Nat) (fs : Fs) (w w' : Bool) :
    receiveOne none s fs w = receiveOne none s' fs w' ∧
    receiveOne none s fs w = ⟨fs, noDestResponse, .NoDestinationConfigured⟩ ∧
    noDestResponse = asciiBytes "ERROR: No save directory selected" :=
  ⟨rfl, rfl, rfl⟩

/-- C10: the frame's two length fields are the byte lengths reduced mod
`2^32` (the `as u32` cast) while the name and payload bytes are carried in
full, so each announced length equals the true length exactly when that
length is below `2^32`. -/
theorem frame_length_fields (name payload : List Nat) :
    encodeFrame name payload =
      toBe32 (name.length % 2 ^ 32) ++ toBe32 (payload.length % 2 ^ 32) ++
        name ++ payload ∧
    beToNat (toBe32 (name.length % 2 ^ 32)) = name.length % 2 ^ 32 ∧
    beToNat (toBe32 (payload.length % 2 ^ 32)) = payload.length % 2 ^ 32 ∧
    (beToNat (toBe32 (name.length % 2 ^ 32)) = name.length ↔ name.length < 2 ^ 32) ∧
    (beToNat (toBe32 (payload.length % 2 ^ 32)) = payload.length ↔
      payload.length < 2 ^ 32) := by
  have hm : ∀ k : Nat, k % 2 ^ 32 < 2 ^ 32 := fun k => Nat.mod_lt _ (by norm_num)
  refine ⟨rfl, beToNat_toBe32 (hm _), beToNat_toBe32 (hm _), ?_, ?_⟩
  · rw [beToNat_toBe32 (hm _)]
    exact Nat.mod_eq_iff_lt (by norm_num)
  · rw [beToNat_toBe32 (hm _)]
    exact Nat.mod_eq_iff_lt (by norm_num)

/-- C4: decoding is strict and sequential.  (i) A successful decode took
exactly 4 + 4 bytes of lengths and then `name_length` name bytes and
`payload_length` payload bytes, in that order: the stream splits as
header, name, payload, remainder.  (ii) Decoding fails exactly when the
stream is too short for the announced counts or the name bytes are not
valid UTF-8.  (iii) On any decode failure the receiver writes nothing
back on the socket and the outcome is `ProtocolError`; the filesystem is
untouched. -/
theorem decode_strict (s : List Nat) :
    (∀ n p r, decodeFrame s = some (n, p, r) →
      n = (s.drop 8).take (beToNat (s.take 4)) ∧
      p = (s.drop (8 + beToNat (s.take 4))).take (beToNat ((s.drop 4).take 4)) ∧
      r = s.drop (8 + beToNat (s.take 4) + beToNat ((s.drop 4).take 4)) ∧
      n.length = beToNat (s.take 4) ∧
      p.length = beToNat ((s.drop 4).take 4) ∧
      s = s.take 4 ++ ((s.drop 4).take 4 ++ (n ++ (p ++ r)))) ∧
    (decodeFrame s = none ↔
      s.length < 8 + beToNat (s.take 4) + beToNat ((s.drop 4).take 4) ∨
        utf8Valid ((s.drop 8).take (beToNat (s.take 4))) = false) ∧
    (∀ dir fs w, decodeFrame s = none →
      receiveOne (some dir) s fs w = ⟨fs, [], .ProtocolError⟩) := by
  rw [decodeFrame_char s]
  by_cases hc : 8 + beToNat (s.take 4) + beToNat ((s.drop 4).take 4) ≤ s.length ∧
      utf8Valid ((s.drop 8).take (beToNat (s.take 4))) = true
  · rw [if_pos hc]
    obtain ⟨hlen, hval⟩ := hc
    refine ⟨?_, ?_, ?_⟩
    · rintro n p r heq
      injection heq with heq
      simp only [Prod.mk.injEq] at heq
      obtain ⟨rfl, rfl, rfl⟩ := heq
      refine ⟨rfl, rfl, rfl, ?_, ?_, ?_⟩
      · rw [List.length_take, List.length_drop]
        omega
      · rw [List.length_take, List.length_drop]
        omega
      · rw [← List.drop_drop (beToNat ((s.drop 4).take 4)) (8 + beToNat (s.take 4)) s,
          List.take_append_drop,
          ← List.drop_drop (beToNat (s.take 4)) 8 s,
          List.take_append_drop,
          show (8 : Nat) = 4 + 4 from rfl,
          ← List.drop_drop 4 4 s,
          List.take_append_drop,
          List.take_append_drop]
    · constructor
      · intro h
        cases h
      · intro h
        rcases h with h | h
        · omega
        · rw [hval] at h
          cases h
    · intro dir fs w h
      cases h
  · rw [if_neg hc]
    push_neg at hc
    refine ⟨?_, ?_, ?_⟩
    · rintro n p r heq
      cases heq
    · constructor
      · intro _
        by_cases hl : 8 + beToNat (s.take 4) + beToNat ((s.drop 4).take 4) ≤ s.length
        · right
          have := hc hl
          simp [this]
        · left
          omega
      · intro _
        rfl
    · intro dir fs w _
      rw [receiveOne, decodeFrame_char s, if_neg]
      push_neg
      exact hc

/-- C5: the sender's pipeline.  (i) A connect failure is an `IOError` with
nothing written.  (ii) A failure to extract the file name
(`file_name().context(..)?`) is an `IOError` with nothing written.
(iii) An `fs::read` failure — the file could not be read into memory — is
an `IOError` with nothing written.  (iv) When the `i`-th `write_all`
fails, exactly the fields before it were written, in order, and the
outcome is `IOError`.  (v) When everything succeeds the four fields go out
in the exact order name length, payload length, name bytes, payload bytes
— concatenating to the frame — and the response read returns at most 1024
bytes whose content is irrelevant: the outcome is `Success` whatever they
are.  (vi) A failure of the response read is an `IOError`. -/
theorem sendFile_pipeline (env : SendEnv) :
    (env.connectOk = false → sendFile env = ⟨[], none, .IOError⟩) ∧
    (env.connectOk = true → env.fileName = none → sendFile env = ⟨[], none, .IOError⟩) ∧
    (∀ nm, env.connectOk = true → env.fileName = some nm → env.fileData = none →
      sendFile env = ⟨[], none, .IOError⟩) ∧
    (∀ nm d i, env.connectOk = true → env.fileName = some nm → env.fileData = some d →
      env.writeFailsAt = some i → i < 4 →
      sendFile env = ⟨(sendFields nm d).take i, none, .IOError⟩) ∧
    (∀ nm d, env.connectOk = true → env.fileName = some nm → env.fileData = some d →
      env.writeFailsAt = none → env.respReadOk = true →
      sendFile env = ⟨sendFields nm d, some (env.respAvail.take 1024), .Success⟩ ∧
        (sendFields nm d).flatten = encodeFrame nm d ∧
        (env.respAvail.take 1024).length ≤ 1024) ∧
    (∀ nm d, env.connectOk = true → env.fileName = some nm → env.fileData = some d →
      env.writeFailsAt = none → env.respReadOk = false →
      sendFile env = ⟨sendFields nm d, none, .IOError⟩) := by
  refine ⟨?_, ?_, ?_, ?_, ?_, ?_⟩
  · intro h
    rw [sendFile, h]
    rfl
  · intro h hf
    rw [sendFile, h, hf]
    rfl
  · intro nm h hf hd
    rw [sendFile, h, hf, hd]
    rfl
  · intro nm d i h hf hd hw hi
    rw [sendFile, h, hf, hd, hw]
    simp [hi]
  · intro nm d h hf hd hw hr
    refine ⟨?_, ?_, ?_⟩
    · rw [sendFile, h, hf, hd, hw]
      simp [hr]
    · simp [sendFields, encodeFrame, List.flatten]
    · rw [List.length_take]
      omega
  · intro nm d h hf hd hw hr
    rw [sendFile, h, hf, hd, hw]
    simp [hr]

/-- C6 (counterexample): `"ctrl+a+b"` contains two key tokens (`a` and `b`
are both in the key table), so by the claim it should be a parse error;
`parse_hotkey` instead accepts it, the later key token silently replacing
the earlier one (main.rs:67 `code = Some(...)` inside the loop). -/
theorem parse_hotkey_two_keys_counterexample :
    keyCodeOf (normTok "a".toList) = some KeyCode.KeyA ∧
    keyCodeOf (normTok "b".toList) = some KeyCode.KeyB ∧
    parse_hotkey "ctrl+a+b".toList =
      .ok ⟨⟨true, false, false, false⟩, KeyCode.KeyB⟩ := by
  refine ⟨by decide, by decide, by decide⟩

/-- C6 (amended): parsing a hotkey specification splits on `+`, trims and
lower-cases each token, and (i) when every token is a modifier or known key
token and at least one key token occurs, succeeds with the accumulated
modifier set and the LAST key token's key code (by construction the
binding holds exactly one key code and zero or more modifiers); (ii) when
every token is good but none is a key token, fails with the
missing-key-code error; (iii) when some token is neither a modifier nor a
known key, fails with an error.  Zero key tokens or an unknown token is a
fatal `ParseError`; several key tokens are not. -/
theorem parse_hotkey_characterization (s : List Char) :
    ((∀ p ∈ splitPlus s, goodTok p = true) →
      ∀ k, keyFold (splitPlus s) none = some k →
        parse_hotkey s = .ok ⟨modsFold (splitPlus s) Modifiers.empty, k⟩) ∧
    ((∀ p ∈ splitPlus s, goodTok p = true) →
      keyFold (splitPlus s) none = none →
        parse_hotkey s = .error "キーコードが指定されていません".toList) ∧
    ((∃ p ∈ splitPlus s, goodTok p = false) →
      ∃ e, parse_hotkey s = .error e) := by
  refine ⟨?_, ?_, ?_⟩
  · intro hgood k hk
    rw [parse_hotkey, parseParts_ok _ _ _ hgood, hk]
  · intro hgood hk
    rw [parse_hotkey, parseParts_ok _ _ _ hgood, hk]
  · intro hbad
    obtain ⟨e, he⟩ := parseParts_err (splitPlus s) Modifiers.empty none hbad
    exact ⟨e, by rw [parse_hotkey, he]⟩

/-- C6 (witness): `"ctrl+shift+r"` parses to control+shift with key `R`,
via the characterization at a concrete input. -/
theorem parse_hotkey_characterization_witness :
    parse_hotkey "ctrl+shift+r".toList =
      .ok ⟨⟨true, true, false, false⟩, KeyCode.KeyR⟩ :=
  (parse_hotkey_characterization "ctrl+shift+r".toList).1 (by decide)
    KeyCode.KeyR (by decide)

theorem updateDest_neutral {hid : Nat} {d : Option (List Nat)} {ev : Option Nat}
    {p : PickerResult} (h : ¬(ev = some hid ∧ ∃ dir, p = .confirmed dir)) :
    updateDest hid d ev p = d := by
  rw [updateDest.eq_def]
  cases ev with
  | none => rfl
  | some id =>
    dsimp only
    by_cases hi : id = hid
    · subst hi
      cases p with
      | confirmed dir => exact absurd ⟨rfl, dir, rfl⟩ h
      | cancelled => rw [if_pos rfl]
    · rw [if_neg hi]

/-- C7: `save_path` is written only by a confirmed picker selection.
(i) A cancelled/dismissed picker leaves the previous value (or its
absence) unchanged on a single iteration.  (ii) Once some destination is
set, folding any sequence of iteration events never returns it to absent.
(iii) If the folded value changed at all, some event in the sequence
matched the registered hotkey and its picker confirmed a directory. -/
theorem pendingDestination_invariant :
    (∀ hid d ev, updateDest hid d ev .cancelled = d) ∧
    (∀ hid d evs, d.isSome = true → (runDest hid d evs).isSome = true) ∧
    (∀ hid d evs, runDest hid d evs ≠ d →
      ∃ e ∈ evs, e.1 = some hid ∧ ∃ dir, e.2 = .confirmed dir) := by
  refine ⟨?_, ?_, ?_⟩
  · intro hid d ev
    exact updateDest_neutral (by rintro ⟨_, dir, h⟩; cases h)
  · intro hid d evs
    induction evs generalizing d with
    | nil => intro h; exact h
    | cons e rest ih =>
      intro h
      rw [runDest, List.foldl_cons]
      apply ih
      rw [updateDest.eq_def]
      cases he : e.1 with
      | none => exact h
      | some id =>
        dsimp only
        by_cases hi : id = hid
        · subst hi
          cases hp : e.2 with
          | confirmed dir => simp
          | cancelled => simpa using h
        · simpa [hi] using h
  · intro hid d evs
    induction evs generalizing d with
    | nil => intro h; exact absurd rfl h
    | cons e rest ih =>
      intro h
      by_cases he : e.1 = some hid ∧ ∃ dir, e.2 = .confirmed dir
      · exact ⟨e, List.mem_cons_self e rest, he⟩
      · rw [runDest, List.foldl_cons, updateDest_neutral he] at h
        obtain ⟨e', he', hm⟩ := ih d h
        exact ⟨e', List.mem_cons_of_mem e he', hm⟩

theorem serverStep_ok (hid : Nat) (dest : Option (List Nat)) (fs : Fs)
    (inp : TickInput) : ∃ fs', serverStep hid dest fs inp =
      .ok (updateDest hid dest inp.ev inp.picker, fs') := by
  rw [serverStep]
  cases inp.conn with
  | none => exact ⟨fs, rfl⟩
  | some s => exact ⟨_, rfl⟩

/-- C8: error containment.  (i) One coordinator iteration always completes
with `.ok` — the destination evolves only by `updateDest`, whatever the
connection carried and whether the file write failed — so no per-transfer
outcome (`IOError`, `ProtocolError`, `NoDestinationConfigured`) propagates
out.  (ii) The whole loop over any finite input trace completes with
`.ok`.  (iii) A transfer whose outcome is not `Success` leaves the
filesystem untouched (the connection is simply dropped).  (iv) An accept
iteration always completes with `.ok`, an accept error leaving the queue
unchanged. -/
theorem loop_error_containment :
    (∀ hid dest fs inp, ∃ fs', serverStep hid dest fs inp =
      .ok (updateDest hid dest inp.ev inp.picker, fs')) ∧
    (∀ hid inputs d fs, ∃ d' fs', serverLoop hid inputs d fs = .ok (d', fs')) ∧
    (∀ dest s fs w, (receiveOne dest s fs w).outcome ≠ .Success →
      (receiveOne dest s fs w).fs = fs) ∧
    (∀ q a, ∃ q', acceptStep q a = .ok q' ∧ (a = none → q' = q)) := by
  refine ⟨serverStep_ok, ?_, ?_, ?_⟩
  · intro hid inputs
    induction inputs with
    | nil => intro d fs; exact ⟨d, fs, rfl⟩
    | cons i rest ih =>
      intro d fs
      obtain ⟨fs', hs⟩ := serverStep_ok hid d fs i
      rw [serverLoop, hs]
      exact ih _ _
  · intro dest s fs w
    cases dest with
    | none => intro _; rfl
    | some dir =>
      rw [receiveOne]
      cases decodeFrame s with
      | none => intro _; rfl
      | some v =>
        obtain ⟨n, p, r⟩ := v
        dsimp only
        cases w with
        | true => intro _; rfl
        | false => intro h; exact absurd rfl h
  · intro q a
    cases a with
    | none => exact ⟨q, rfl, fun _ => rfl⟩
    | some c => exact ⟨q ++ [c], rfl, by simp⟩

/-- C9: the frame name sent by `send_file`.  (i) When the picked path has a
final normal component, the transmitted name is exactly that component run
through `String::from_utf8_lossy` — never the rest of the path: (ii) two
paths with the same final component yield the same frame name.  (iii) The
lossy conversion always yields valid UTF-8, so the transmitted name bytes
are valid UTF-8 even when the local file name is not. -/
theorem senderName_lastComponent_utf8 :
    (∀ comps c, fileNameOf comps = some c → senderName comps = some (utf8Lossy c)) ∧
    (∀ c1 c2 : List (List Nat), c1.getLast? = c2.getLast? →
      senderName c1 = senderName c2) ∧
    (∀ bs : List Nat, utf8Valid (utf8Lossy bs) = true) := by
  refine ⟨?_, ?_, ?_⟩
  · intro comps c h
    rw [senderName, h]
    rfl
  · intro c1 c2 h
    rw [senderName, senderName, fileNameOf.eq_def, fileNameOf.eq_def, h]
  · exact utf8Valid_utf8Lossy

/-- C9 (witness): a path `dir/name` whose final component `[0xFF, 0x61]`
is not valid UTF-8 is transmitted as its lossy conversion
`[0xEF, 0xBF, 0xBD, 0x61]`, which is valid UTF-8. -/
theorem senderName_lastComponent_utf8_witness :
    senderName [[100], [0xFF, 0x61]] = some (utf8Lossy [0xFF, 0x61]) ∧
    utf8Valid (utf8Lossy [0xFF, 0x61]) = true :=
  ⟨senderName_lastComponent_utf8.1 [[100], [0xFF, 0x61]] [0xFF, 0x61] (by decide),
   senderName_lastComponent_utf8.2.2 [0xFF, 0x61]⟩

end FileTransfer
